import Mathlib

/-!
Formal model of the M3U2strm3 reconciliation pipeline.

The definitions below are a shallow embedding of the Python sources
src/main.py and src/progress_tracker.py:

* title scanning for a season/episode marker (the regular expressions
  used at main.py lines 170-173, 196-199, 384-385, 466-469);
* the identity-key assignment and dict-based deduplication of
  main.py lines 164-183;
* the Creating-STRM phase of main.py lines 365-480 (first pass,
  batch loop, excluded loop, final cache replacement);
* the progress tracker operations of progress_tracker.py
  (start_phase, update_phase).

External collaborators that main.py imports from modules not part of
the analysed tree (canonical_movie_key, canonical_tv_key,
make_cache_key, sanitize_title from core; movie_strm_path,
tv_strm_path, doc_strm_path from strm_utils) are kept abstract: they
are bundled as record parameters, so every theorem holds for any
interpretation of them.  Wall-clock time is modelled as an explicit
rational parameter.
-/

/-! ### Python string helpers

Character classes of the regular expressions used in main.py.
The titles handled by the pipeline are single-line, so the class of
whitespace characters is the ASCII part of Python's regex class. -/

def isPyDigit (c : Char) : Bool := '0' ≤ c && c ≤ '9'

def isPySpace (c : Char) : Bool :=
  c = ' ' || c = '\t' || c = '\n' || c = '\r' || c = '\x0b' || c = '\x0c'

def digitVal (c : Char) : Nat := c.toNat - '0'.toNat

/-- Greedy match of one or two decimal digits at the head of the
character list, returning the numeric value and the remaining
characters.  This realises a regex group of one or two digits. -/
def grabDigits2 : List Char → Option (Nat × List Char)
  | [] => none
  | [c] => if isPyDigit c then some (digitVal c, []) else none
  | c1 :: c2 :: rest =>
    if isPyDigit c1 then
      if isPyDigit c2 then some (digitVal c1 * 10 + digitVal c2, rest)
      else some (digitVal c1, c2 :: rest)
    else none

/-- Skip a (possibly empty) run of whitespace characters. -/
def dropSpaces : List Char → List Char
  | [] => []
  | c :: rest => if isPySpace c then dropSpaces rest else c :: rest

/-- Match, anchored at the head of the list, the season/episode marker
used throughout main.py: letter s or S, one or two digits, optional
whitespace, letter e or E, one or two digits.  In Python this is the
pattern searched at main.py line 170.  The greedy digit groups need no
backtracking: if two digits were taken, retrying with one digit leaves
the cursor on a digit, which is neither whitespace nor e/E, so the
retry always fails too; the deterministic greedy scan below therefore
agrees with the backtracking regex engine. -/
def matchSEAt : List Char → Option (Nat × Nat)
  | [] => none
  | c :: rest =>
    if c = 's' || c = 'S' then
      match grabDigits2 rest with
      | none => none
      | some (season, rest1) =>
        match dropSpaces rest1 with
        | [] => none
        | d :: rest2 =>
          if d = 'e' || d = 'E' then
            match grabDigits2 rest2 with
            | none => none
            | some (episode, _) => some (season, episode)
          else none
    else none

/-- Leftmost search for the season/episode marker; returns the
characters strictly before the match together with the season and
episode numbers.  This models the combination of re.search (for the
group values) and re.sub of the marker-to-end-of-title pattern by the
empty string (for the text before the match); both patterns match at
the same leftmost position because the trailing dot-star of the
substitution pattern always succeeds on a single-line title. -/
def searchSE : List Char → Option (List Char × Nat × Nat)
  | [] => none
  | c :: rest =>
    match matchSEAt (c :: rest) with
    | some (s, e) => some ([], s, e)
    | none =>
      match searchSE rest with
      | some (pre, s, e) => some (c :: pre, s, e)
      | none => none

/-- Python str.strip: remove leading and trailing whitespace. -/
def pyStrip (cs : List Char) : List Char :=
  ((cs.dropWhile isPySpace).reverse.dropWhile isPySpace).reverse

/-- Season/episode decomposition of a raw title as performed by
main.py lines 170-173 (and identically at 196-199, 384-388, 466-470):
search for the marker; on success the base series name is the stripped
text before the marker and the numeric season/episode are returned. -/
def tvParts (title : String) : Option (String × Nat × Nat) :=
  match searchSE title.data with
  | some (pre, s, e) => some (⟨pyStrip pre⟩, s, e)
  | none => none

/-! ### Entries, categories and abstract collaborators -/

/-- Category of m3u_utils as used by main.py. -/
inductive Category where
  | MOVIE
  | TVSHOW
  | DOCUMENTARY
  | REPLAY
  | UNKNOWN
deriving DecidableEq, Repr

/-- The fields of m3u_utils.VODEntry that main.py reads or writes. -/
structure VODEntry where
  raw_title : String
  safe_title : String
  url : String
  category : Category
  year : Option Nat := none
deriving DecidableEq, Repr

/-- Abstract interpretation of the key and title helpers that main.py
imports from the core module.  All theorems are stated for an
arbitrary interpretation. -/
structure KeyFns where
  canonical_movie_key : String → String
  canonical_tv_key : String → Nat → Nat → String
  make_cache_key : String → String
  sanitize_title : String → String

/-- The identity key assigned to an entry by the deduplication loop of
main.py lines 166-181. -/
def identityKey (kf : KeyFns) (e : VODEntry) : String :=
  match e.category with
  | .MOVIE => kf.canonical_movie_key e.raw_title
  | .TVSHOW =>
    match tvParts e.raw_title with
    | some (base, season, episode) => kf.canonical_tv_key base season episode
    | none => kf.make_cache_key e.raw_title
  | .DOCUMENTARY => kf.canonical_movie_key e.raw_title
  | _ => kf.make_cache_key e.raw_title

/-! ### Deduplication (main.py lines 164-183)

A Python dict is modelled as an insertion-ordered association list:
assigning to a present key replaces the value in place, assigning to an
absent key appends. -/

def dictInsert (m : List (String × VODEntry)) (k : String) (v : VODEntry) :
    List (String × VODEntry) :=
  match m with
  | [] => [(k, v)]
  | (k', v') :: rest =>
    if k' = k then (k, v) :: rest else (k', v') :: dictInsert rest k v

/-- The dict built by the loop at main.py lines 165-181. -/
def dedupPairs (kf : KeyFns) (es : List VODEntry) : List (String × VODEntry) :=
  es.foldl (fun m e => dictInsert m (identityKey kf e) e) []

/-- The retained entries, main.py line 183 (dict value view). -/
def dedupEntries (kf : KeyFns) (es : List VODEntry) : List VODEntry :=
  (dedupPairs kf es).map Prod.snd

def dictKeys (m : List (String × VODEntry)) : List String := m.map Prod.fst

/-! ### Pointer cache and the Creating-STRM phase (main.py lines 266-480) -/

/-- A row of the pointer-cache table as read and written by main.py:
the dict literals written by the engine and the nullable columns read
from SQLite. -/
structure CacheRecord where
  url : String
  path : Option String
  allowed : Option Nat
deriving DecidableEq, Repr

/-- A Python dict keyed by identity keys, viewed extensionally. -/
abbrev Cache := String → Option CacheRecord

def cacheInsert (c : Cache) (k : String) (r : CacheRecord) : Cache :=
  fun k' => if k' = k then some r else c k'

/-- Abstract interpretation of the path builders that main.py imports
from strm_utils. -/
structure PathFns where
  movie_strm_path : String → VODEntry → String
  tv_strm_path : String → VODEntry → Nat → Nat → String
  doc_strm_path : String → VODEntry → String

/-- Key and relative path computed for one allowed entry by the first
pass of the Creating-STRM phase, main.py lines 380-406; none models
the continue taken for categories other than movie, TV show and
documentary (line 407-408). -/
def firstPassKeyPath (kf : KeyFns) (pf : PathFns) (out : String) (e : VODEntry) :
    Option (String × String) :=
  match e.category with
  | .MOVIE => some (kf.canonical_movie_key e.raw_title, pf.movie_strm_path out e)
  | .TVSHOW =>
    match tvParts e.raw_title with
    | some (base, season, episode) =>
      some (kf.canonical_tv_key base season episode,
        pf.tv_strm_path out
          { raw_title := base, safe_title := kf.sanitize_title base,
            url := e.url, category := e.category, year := e.year }
          season episode)
    | none => some (kf.make_cache_key e.raw_title, pf.tv_strm_path out e 1 1)
  | .DOCUMENTARY => some (kf.canonical_movie_key e.raw_title, pf.doc_strm_path out e)
  | _ => none

/-- Accumulator of the first pass: the file_operations list and the
running skipped_count of main.py lines 370-373. -/
structure FirstPassState where
  fileOps : List (String × String × String × VODEntry)
  skipped : Nat
deriving Repr

/-- One iteration of the first-pass loop, main.py lines 376-419:
continue on an unusable category or an empty key, count a skip when
the key is in the existing-media index or (without force-regenerate)
present in the pre-run pointer cache, otherwise append a file
operation.  The per-entry computations embedded here are total, so the
except branch of the source loop is unreachable in the model. -/
def firstPassStep (kf : KeyFns) (pf : PathFns) (out : String) (force : Bool)
    (existing : String → Bool) (c0 : Cache)
    (st : FirstPassState) (e : VODEntry) : FirstPassState :=
  match firstPassKeyPath kf pf out e with
  | none => st
  | some (key, relPath) =>
    if key = "" then st
    else if existing key || (!force && (c0 key).isSome) then
      { st with skipped := st.skipped + 1 }
    else
      { st with fileOps := st.fileOps ++ [(relPath, e.url, key, e)] }

def firstPass (kf : KeyFns) (pf : PathFns) (out : String) (force : Bool)
    (existing : String → Bool) (c0 : Cache) (allowed : List VODEntry) :
    FirstPassState :=
  allowed.foldl (firstPassStep kf pf out force existing c0)
    { fileOps := [], skipped := 0 }

/-- The key computed for an excluded entry by main.py lines 462-474. -/
def excludedKey (kf : KeyFns) (e : VODEntry) : String :=
  match e.category with
  | .MOVIE => kf.canonical_movie_key e.raw_title
  | .DOCUMENTARY => kf.canonical_movie_key e.raw_title
  | .TVSHOW =>
    match tvParts e.raw_title with
    | some (base, season, episode) => kf.canonical_tv_key base season episode
    | none => kf.make_cache_key e.raw_title
  | _ => kf.make_cache_key e.raw_title

/-- The excluded-entries loop, main.py lines 461-475: each excluded
entry overwrites its key with a record of its url, a null path and
allowed zero. -/
def excludedPass (kf : KeyFns) (c : Cache) (excluded : List VODEntry) : Cache :=
  excluded.foldl
    (fun c e =>
      cacheInsert c (excludedKey kf e) { url := e.url, path := none, allowed := some 0 })
    c

/-- A Python runtime error surfaced by the embedding. -/
inductive PyErr where
  | nameError (missing : String)
deriving DecidableEq, Repr

/-- Outcome of the Creating-STRM phase together with the cache
replacement of main.py line 480.  stored is the mapping handed to
replace_strm_cache when the run reaches line 480, and none when the
phase raises first; creatingTrace lists the processed arguments of the
progress updates issued for the Creating-STRM phase. -/
structure RunOutcome where
  fileOps : List (String × String × String × VODEntry)
  skippedFirst : Nat
  stored : Option Cache
  err : Option PyErr
  creatingTrace : List Nat

/-- The Creating-STRM phase of main.py lines 365-480.  new_cache is
initialised as a copy of the pre-run pointer cache (line 268).  When
the first pass selects no file operation the batch loop body never
runs, the excluded loop updates the copy, the final per-phase update
reports the allowed-entry count (line 477) and the result is stored
(line 480).  When at least one operation is selected, the first batch
iteration evaluates the global name batch_write_strm_files (line 432),
which is neither defined in main.py nor imported by it, so the phase
raises NameError before any batch progress update, any cache update
from the batch loop, the excluded loop, or the cache replacement. -/
def runEngine (kf : KeyFns) (pf : PathFns) (out : String) (force : Bool)
    (allowed excluded : List VODEntry) (existing : String → Bool) (c0 : Cache) :
    RunOutcome :=
  let fp := firstPass kf pf out force existing c0 allowed
  if fp.fileOps.length = 0 then
    { fileOps := fp.fileOps, skippedFirst := fp.skipped,
      stored := some (excludedPass kf c0 excluded),
      err := none,
      creatingTrace := [allowed.length] }
  else
    { fileOps := fp.fileOps, skippedFirst := fp.skipped,
      stored := none,
      err := some (.nameError "batch_write_strm_files"),
      creatingTrace := [] }

/-- Per-phase sequences of processed values passed to the tracker by
run_pipeline, in phase order: Scanning Local Media issues no per-item
update; Parsing issues one with the deduplicated count (line 184);
Filtering one with the to_check count (line 262); Creating-STRM the
trace of the engine; Cleanup one update with value one (line 489),
reached only when the engine did not raise. -/
def pipelineTraces (dedupCount toCheckCount : Nat) (r : RunOutcome) :
    List (List Nat) :=
  [[], [dedupCount], [toCheckCount], r.creatingTrace,
    if r.err.isSome then [] else [1]]

/-! ### Progress tracker (progress_tracker.py)

Fields that start_phase and update_phase never touch (verbosity, the
lock, callbacks, statistics, the shutdown flag) are omitted; time is
an explicit rational argument standing for the time.time() call made
inside each operation. -/

inductive ProgressPhase where
  | SCANNING_LOCAL
  | PARSING_M3U
  | FILTERING_TMDB
  | CREATING_STRM
  | CLEANUP
deriving DecidableEq, Repr

structure PhaseProgress where
  total : Nat := 0
  processed : Nat := 0
  started_at : Option ℚ := none
  completed_at : Option ℚ := none
  items_per_second : ℚ := 0
  current_item : String := ""
  success_count : Nat := 0
  failure_count : Nat := 0
  skipped_count : Nat := 0
deriving DecidableEq, Repr

structure ProgressTracker where
  phases : ProgressPhase → Option PhaseProgress
  current_phase : Option ProgressPhase := none

/-- progress_tracker.py lines 150-163: create the phase entry when
absent, then stamp a new start time, overwrite total, reset processed
to zero and clear the current-item label; the success, failure and
skipped counters and the completion timestamp of an existing entry are
left as they were. -/
def start_phase (now : ℚ) (st : ProgressTracker) (phase : ProgressPhase)
    (total_items : Nat) : ProgressTracker :=
  let p :=
    match st.phases phase with
    | none => ({ total := total_items } : PhaseProgress)
    | some p => p
  let p := { p with
      started_at := some now, total := total_items,
      processed := 0, current_item := "" }
  { phases := fun q => if q = phase then some p else st.phases q,
    current_phase := some phase }

/-- progress_tracker.py lines 165-191: no-op on an untracked phase;
otherwise overwrite processed and the (length-capped) current item,
increment success_count when success is set, failure_count when
neither success nor skipped is set, skipped_count when skipped is set,
and recompute items_per_second as processed over elapsed when the
phase has a start stamp and the elapsed time is positive. -/
def update_phase (now : ℚ) (st : ProgressTracker) (phase : ProgressPhase)
    (processed : Nat) (current_item : String) (success skipped : Bool) :
    ProgressTracker :=
  match st.phases phase with
  | none => st
  | some p =>
    let p := { p with processed := processed, current_item := current_item.take 100 }
    let p :=
      if success then { p with success_count := p.success_count + 1 }
      else if !skipped then { p with failure_count := p.failure_count + 1 }
      else p
    let p := if skipped then { p with skipped_count := p.skipped_count + 1 } else p
    let p :=
      match p.started_at with
      | none => p
      | some t0 =>
        if 0 < now - t0 then
          { p with items_per_second := (processed : ℚ) / (now - t0) }
        else p
    { st with phases := fun q => if q = phase then some p else st.phases q }

/-! ### Properties of the deduplication dict -/

@[simp]
theorem dictKeys_nil : dictKeys [] = [] := rfl

@[simp]
theorem dictKeys_cons (p : String × VODEntry) (m : List (String × VODEntry)) :
    dictKeys (p :: m) = p.1 :: dictKeys m := rfl

theorem dictKeys_dictInsert (m : List (String × VODEntry)) (k : String) (v : VODEntry) :
    dictKeys (dictInsert m k v) =
      if k ∈ dictKeys m then dictKeys m else dictKeys m ++ [k] := by
  induction m with
  | nil => simp [dictInsert]
  | cons q rest ih =>
    obtain ⟨k', v'⟩ := q
    by_cases h : k' = k
    · subst h
      simp [dictInsert]
    · simp only [dictInsert, if_neg h, dictKeys_cons, List.mem_cons, ih]
      have h' : ¬ k = k' := fun hc => h hc.symm
      by_cases hmem : k ∈ dictKeys rest
      · simp [hmem, h']
      · simp [hmem, h']

theorem length_dictInsert (m : List (String × VODEntry)) (k : String) (v : VODEntry) :
    (dictInsert m k v).length =
      if k ∈ dictKeys m then m.length else m.length + 1 := by
  have h := dictKeys_dictInsert m k v
  have hl : (dictInsert m k v).length = (dictKeys (dictInsert m k v)).length := by
    simp [dictKeys]
  have hm : m.length = (dictKeys m).length := by simp [dictKeys]
  rw [hl, h]
  by_cases hmem : k ∈ dictKeys m
  · simp [hmem, hm]
  · simp [hmem, hm]

theorem mem_dictInsert (m : List (String × VODEntry)) (k : String) (v : VODEntry)
    (p : String × VODEntry) (hm : (dictKeys m).Nodup) :
    p ∈ dictInsert m k v ↔ p = (k, v) ∨ (p ∈ m ∧ p.1 ≠ k) := by
  induction m with
  | nil => simp [dictInsert]
  | cons q rest ih =>
    obtain ⟨k', v'⟩ := q
    simp only [dictKeys_cons, List.nodup_cons] at hm
    by_cases h : k' = k
    · rw [dictInsert, if_pos h]
      constructor
      · intro hp
        rcases List.mem_cons.mp hp with rfl | hp
        · exact Or.inl rfl
        · refine Or.inr ⟨List.mem_cons.mpr (Or.inr hp), fun hk => ?_⟩
          refine hm.1 ?_
          rw [h, ← hk]
          exact List.mem_map_of_mem Prod.fst hp
      · rintro (rfl | ⟨hp, hne⟩)
        · exact List.mem_cons_self _ _
        · rcases List.mem_cons.mp hp with rfl | hp
          · exact absurd h hne
          · exact List.mem_cons.mpr (Or.inr hp)
    · rw [dictInsert, if_neg h]
      constructor
      · intro hp
        rcases List.mem_cons.mp hp with rfl | hp
        · exact Or.inr ⟨List.mem_cons_self _ _, fun hk => h hk⟩
        · rcases (ih hm.2).mp hp with rfl | ⟨hp, hne⟩
          · exact Or.inl rfl
          · exact Or.inr ⟨List.mem_cons.mpr (Or.inr hp), hne⟩
      · rintro (rfl | ⟨hp, hne⟩)
        · exact List.mem_cons.mpr (Or.inr ((ih hm.2).mpr (Or.inl rfl)))
        · rcases List.mem_cons.mp hp with rfl | hp
          · exact List.mem_cons_self _ _
          · exact List.mem_cons.mpr (Or.inr ((ih hm.2).mpr (Or.inr ⟨hp, hne⟩)))

theorem nodup_dictKeys_dictInsert (m : List (String × VODEntry)) (k : String)
    (v : VODEntry) (hm : (dictKeys m).Nodup) :
    (dictKeys (dictInsert m k v)).Nodup := by
  rw [dictKeys_dictInsert]
  by_cases hmem : k ∈ dictKeys m
  · simpa [hmem] using hm
  · rw [if_neg hmem]
    refine List.Nodup.append hm (List.nodup_singleton k) ?_
    intro a ha hka
    rw [List.mem_singleton] at hka
    exact hmem (hka ▸ ha)

theorem dedupPairs_append (kf : KeyFns) (es : List VODEntry) (e : VODEntry) :
    dedupPairs kf (es ++ [e]) = dictInsert (dedupPairs kf es) (identityKey kf e) e := by
  simp [dedupPairs, List.foldl_append]

/-- Full characterisation of the deduplication dict: its keys are
exactly the distinct identity keys of the input, in particular its
size is the number of distinct keys, and each stored value is the last
occurrence in file order of an entry with that key. -/
theorem dedupPairs_spec (kf : KeyFns) (es : List VODEntry) :
    (dictKeys (dedupPairs kf es)).Nodup
    ∧ (∀ k, k ∈ dictKeys (dedupPairs kf es) ↔ k ∈ es.map (identityKey kf))
    ∧ (∀ p ∈ dedupPairs kf es,
        (es.filter (fun x => identityKey kf x == p.1)).getLast? = some p.2)
    ∧ (dedupPairs kf es).length = (es.map (identityKey kf)).toFinset.card := by
  induction es using List.reverseRecOn with
  | nil => simp [dedupPairs]
  | append_singleton es e ih =>
    obtain ⟨hnd, hkeys, hlast, hlen⟩ := ih
    rw [dedupPairs_append]
    set k := identityKey kf e with hk
    refine ⟨nodup_dictKeys_dictInsert _ _ _ hnd, ?_, ?_, ?_⟩
    · intro k'
      rw [dictKeys_dictInsert]
      by_cases hmem : k ∈ dictKeys (dedupPairs kf es)
      · rw [if_pos hmem]
        have hke : k ∈ es.map (identityKey kf) := (hkeys k).mp hmem
        rw [hkeys k']
        simp only [List.map_append, List.map_cons, List.map_nil, List.mem_append,
          List.mem_singleton]
        constructor
        · exact Or.inl
        · rintro (h | rfl)
          · exact h
          · exact hke
      · rw [if_neg hmem]
        simp only [List.mem_append, List.mem_singleton, hkeys k', List.map_append,
          List.map_cons, List.map_nil]
    · intro p hp
      rcases (mem_dictInsert _ _ _ _ hnd).mp hp with rfl | ⟨hpm, hne⟩
      · simp only [List.filter_append]
        have he : (List.filter (fun x => identityKey kf x == k) [e]) = [e] := by
          simp [hk]
        rw [he, List.getLast?_concat]
      · have he : (List.filter (fun x => identityKey kf x == p.1) [e]) = [] := by
          simp only [List.filter, List.filter_nil]
          have : (identityKey kf e == p.1) = false := by
            simp only [beq_eq_false_iff_ne, ne_eq]
            intro hkp
            exact hne (by rw [← hkp, hk])
          rw [this]
        rw [List.filter_append, he, List.append_nil]
        exact hlast p hpm
    · have hset : (((es ++ [e]).map (identityKey kf)).toFinset : Finset String)
          = insert k ((es.map (identityKey kf)).toFinset) := by
        ext a
        simp [hk, or_comm]
      rw [length_dictInsert, hset]
      by_cases hmem : k ∈ dictKeys (dedupPairs kf es)
      · have hke : k ∈ (es.map (identityKey kf)).toFinset :=
          List.mem_toFinset.mpr ((hkeys k).mp hmem)
        rw [if_pos hmem, hlen, Finset.insert_eq_self.mpr hke]
      · have hke : k ∉ (es.map (identityKey kf)).toFinset := by
          rw [List.mem_toFinset]
          exact fun hc => hmem ((hkeys k).mpr hc)
        rw [if_neg hmem, hlen, Finset.card_insert_of_not_mem hke]

/-! ### Concrete instances used by closed witness statements -/

/-- Concrete interpretation of the abstract key helpers, used only to
instantiate theorems at closed inputs. -/
def kfTest : KeyFns where
  canonical_movie_key := fun t => "movie:" ++ t
  canonical_tv_key := fun b s e => "tv:" ++ b ++ ":" ++ toString s ++ ":" ++ toString e
  make_cache_key := fun t => "raw:" ++ t
  sanitize_title := fun t => t

/-- Concrete interpretation of the abstract path builders. -/
def pfTest : PathFns where
  movie_strm_path := fun out e => out ++ "/Movies/" ++ e.safe_title ++ ".strm"
  tv_strm_path := fun out e s ep =>
    out ++ "/TV/" ++ e.safe_title ++ "/" ++ toString s ++ "x" ++ toString ep ++ ".strm"
  doc_strm_path := fun out e => out ++ "/Docs/" ++ e.safe_title ++ ".strm"

/-- Constructor shorthand for a VODEntry literal. -/
def mkEntry (t s u : String) (c : Category) (y : Option Nat) : VODEntry :=
  { raw_title := t, safe_title := s, url := u, category := c, year := y }

def show1080 : VODEntry :=
  { raw_title := "Show.Name.S01E02.1080p", safe_title := "Show.Name.S01E02.1080p",
    url := "http://host/1080", category := .TVSHOW }

def show720 : VODEntry :=
  { raw_title := "Show.Name.S01E02.720p", safe_title := "Show.Name.S01E02.720p",
    url := "http://host/720", category := .TVSHOW }

def movieA1 : VODEntry :=
  { raw_title := "Alpha", safe_title := "Alpha", url := "http://host/a1", category := .MOVIE }

def movieB : VODEntry :=
  { raw_title := "Beta", safe_title := "Beta", url := "http://host/b", category := .MOVIE }

def movieA2 : VODEntry :=
  { raw_title := "Alpha", safe_title := "Alpha", url := "http://host/a2", category := .MOVIE }

theorem tvParts_show1080 :
    tvParts "Show.Name.S01E02.1080p" = some ("Show.Name.", 1, 2) := by decide

theorem tvParts_show720 :
    tvParts "Show.Name.S01E02.720p" = some ("Show.Name.", 1, 2) := by decide

theorem identityKey_show1080 (kf : KeyFns) :
    identityKey kf show1080 = kf.canonical_tv_key "Show.Name." 1 2 := by
  have h : identityKey kf show1080
      = match tvParts "Show.Name.S01E02.1080p" with
        | some (b, s, ep) => kf.canonical_tv_key b s ep
        | none => kf.make_cache_key "Show.Name.S01E02.1080p" := rfl
  rw [h, tvParts_show1080]

theorem identityKey_show720 (kf : KeyFns) :
    identityKey kf show720 = kf.canonical_tv_key "Show.Name." 1 2 := by
  have h : identityKey kf show720
      = match tvParts "Show.Name.S01E02.720p" with
        | some (b, s, ep) => kf.canonical_tv_key b s ep
        | none => kf.make_cache_key "Show.Name.S01E02.720p" := rfl
  rw [h, tvParts_show720]

/-- Claim C6: iterating the parsed entries in file order into a map
keyed by identity key retains exactly one entry per distinct key, the
count of retained entries equals the count of distinct keys, and each
retained value is the last file-order occurrence of its key; in
particular the 1080p and then 720p renditions of Show.Name S01E02 both
receive the TV key of base Show.Name., season 1, episode 2, and only
the 720p entry is retained. -/
theorem C6_dedup_last_occurrence (kf : KeyFns) (es : List VODEntry) :
    (dedupEntries kf es).length = (es.map (identityKey kf)).toFinset.card
    ∧ (∀ p ∈ dedupPairs kf es,
        (es.filter (fun x => identityKey kf x == p.1)).getLast? = some p.2)
    ∧ identityKey kf show1080 = kf.canonical_tv_key "Show.Name." 1 2
    ∧ identityKey kf show720 = kf.canonical_tv_key "Show.Name." 1 2
    ∧ dedupEntries kf [show1080, show720] = [show720] := by
  obtain ⟨hnd, hkeys, hlast, hlen⟩ := dedupPairs_spec kf es
  refine ⟨by simpa [dedupEntries] using hlen, hlast,
    identityKey_show1080 kf, identityKey_show720 kf, ?_⟩
  have h1 := identityKey_show1080 kf
  have h2 := identityKey_show720 kf
  simp [dedupEntries, dedupPairs, dictInsert, h1, h2]

/-- Closed instance of claim C6 on the list movieA1, movieB, movieA2:
two distinct keys give two retained entries, and the retained entry
for the Alpha key is the later occurrence movieA2. -/
theorem C6_dedup_last_occurrence_witness :
    (dedupEntries kfTest [movieA1, movieB, movieA2]).length
        = ([movieA1, movieB, movieA2].map (identityKey kfTest)).toFinset.card
    ∧ ([movieA1, movieB, movieA2].filter
          (fun x => identityKey kfTest x == "movie:Alpha")).getLast? = some movieA2 := by
  have h := C6_dedup_last_occurrence kfTest [movieA1, movieB, movieA2]
  refine ⟨h.1, ?_⟩
  have hp := h.2.1 ("movie:Alpha", movieA2) (by decide)
  simpa using hp

/-- Claim C10: a movie entry and a documentary entry with the same raw
title receive the same identity key, namely the canonical movie key of
that title, deduplication collapses the pair to the single later
entry, and the excluded-pass key computation also agrees on the two
entries, so both address one cache record. -/
theorem C10_movie_doc_share_key (kf : KeyFns) (t su sd uu ud : String)
    (yu yd : Option Nat) :
    identityKey kf (mkEntry t su uu .MOVIE yu) = kf.canonical_movie_key t
    ∧ identityKey kf (mkEntry t sd ud .DOCUMENTARY yd) = kf.canonical_movie_key t
    ∧ dedupEntries kf [mkEntry t su uu .MOVIE yu, mkEntry t sd ud .DOCUMENTARY yd]
      = [mkEntry t sd ud .DOCUMENTARY yd]
    ∧ excludedKey kf (mkEntry t su uu .MOVIE yu)
      = excludedKey kf (mkEntry t sd ud .DOCUMENTARY yd) := by
  refine ⟨rfl, rfl, ?_, rfl⟩
  simp [dedupEntries, dedupPairs, dictInsert, identityKey, mkEntry]

/-! ### Characterisation of the Creating-STRM first pass -/

/-- The file operation, if any, that one allowed entry contributes to
file_operations: the append branch of the first-pass loop body. -/
def opOf (kf : KeyFns) (pf : PathFns) (out : String) (force : Bool)
    (existing : String → Bool) (c0 : Cache) (e : VODEntry) :
    Option (String × String × String × VODEntry) :=
  match firstPassKeyPath kf pf out e with
  | none => none
  | some (key, relPath) =>
    if key = "" then none
    else if existing key || (!force && (c0 key).isSome) then none
    else some (relPath, e.url, key, e)

theorem firstPassStep_fileOps (kf : KeyFns) (pf : PathFns) (out : String)
    (force : Bool) (existing : String → Bool) (c0 : Cache)
    (st : FirstPassState) (e : VODEntry) :
    (firstPassStep kf pf out force existing c0 st e).fileOps
      = st.fileOps ++ (opOf kf pf out force existing c0 e).toList := by
  rcases hk : firstPassKeyPath kf pf out e with _ | ⟨key, relPath⟩
  · simp [firstPassStep, opOf, hk]
  · by_cases h1 : key = ""
    · simp [firstPassStep, opOf, hk, h1]
    · by_cases h2 : (existing key || (!force && (c0 key).isSome)) = true
      · simp [firstPassStep, opOf, hk, h1, h2]
      · simp [firstPassStep, opOf, hk, h1, h2]

theorem foldl_firstPassStep_fileOps (kf : KeyFns) (pf : PathFns) (out : String)
    (force : Bool) (existing : String → Bool) (c0 : Cache)
    (es : List VODEntry) (st : FirstPassState) :
    (es.foldl (firstPassStep kf pf out force existing c0) st).fileOps
      = st.fileOps ++ es.filterMap (opOf kf pf out force existing c0) := by
  induction es generalizing st with
  | nil => simp
  | cons e es ih =>
    rw [List.foldl_cons, ih, firstPassStep_fileOps]
    cases h : opOf kf pf out force existing c0 e with
    | none => simp [List.filterMap_cons, h]
    | some op => simp [List.filterMap_cons, h]

theorem firstPass_fileOps (kf : KeyFns) (pf : PathFns) (out : String)
    (force : Bool) (existing : String → Bool) (c0 : Cache)
    (allowed : List VODEntry) :
    (firstPass kf pf out force existing c0 allowed).fileOps
      = allowed.filterMap (opOf kf pf out force existing c0) := by
  rw [firstPass, foldl_firstPassStep_fileOps]
  rfl

/-- An appended file operation always carries a key outside the
existing-media index. -/
theorem opOf_existing_false (kf : KeyFns) (pf : PathFns) (out : String)
    (force : Bool) (existing : String → Bool) (c0 : Cache) (e : VODEntry)
    (op : String × String × String × VODEntry)
    (h : opOf kf pf out force existing c0 e = some op) :
    existing op.2.2.1 = false := by
  rcases hk : firstPassKeyPath kf pf out e with _ | ⟨key, relPath⟩
  · simp [opOf, hk] at h
  · simp only [opOf, hk] at h
    by_cases h1 : key = ""
    · simp [h1] at h
    · rw [if_neg h1] at h
      by_cases h2 : (existing key || (!force && (c0 key).isSome)) = true
      · rw [if_pos h2] at h; cases h
      · rw [if_neg h2] at h
        cases h
        show existing key = false
        simp only [Bool.or_eq_true, not_or] at h2
        simpa using h2.1

/-- Selecting no operation is preserved when the pointer cache only
gains keys (force-regenerate disabled). -/
theorem opOf_none_mono (kf : KeyFns) (pf : PathFns) (out : String)
    (existing : String → Bool) (c0 c1 : Cache) (e : VODEntry)
    (hdom : ∀ k, (c0 k).isSome → (c1 k).isSome)
    (h : opOf kf pf out false existing c0 e = none) :
    opOf kf pf out false existing c1 e = none := by
  rcases hk : firstPassKeyPath kf pf out e with _ | ⟨key, relPath⟩
  · simp [opOf, hk]
  · simp only [opOf, hk] at h ⊢
    by_cases h1 : key = ""
    · rw [if_pos h1]
    · rw [if_neg h1] at h ⊢
      by_cases h2 : (existing key || (!false && (c0 key).isSome)) = true
      · rcases (Bool.or_eq_true _ _).mp h2 with hex | hsome
        · rw [if_pos (by simp [hex])]
        · have hs : (c1 key).isSome := hdom key (by simpa using hsome)
          rw [if_pos (by simp [hs])]
      · rw [if_neg h2] at h
        cases h

/-! ### Characterisation of the excluded-entries pass -/

theorem excludedPass_append (kf : KeyFns) (c : Cache) (ex : List VODEntry)
    (e : VODEntry) :
    excludedPass kf c (ex ++ [e])
      = cacheInsert (excludedPass kf c ex) (excludedKey kf e)
          { url := e.url, path := none, allowed := some 0 } := by
  simp [excludedPass, List.foldl_append]

/-- Pointwise value of the excluded pass: the last excluded entry
whose key equals the probe determines the record, otherwise the base
cache answers. -/
theorem excludedPass_apply (kf : KeyFns) (c : Cache) (ex : List VODEntry)
    (k : String) :
    excludedPass kf c ex k
      = match (ex.filter (fun e => excludedKey kf e == k)).getLast? with
        | some e => some { url := e.url, path := none, allowed := some 0 }
        | none => c k := by
  induction ex using List.reverseRecOn with
  | nil => simp [excludedPass]
  | append_singleton ex e ih =>
    rw [excludedPass_append]
    by_cases hke : excludedKey kf e = k
    · have hf : ((ex ++ [e]).filter (fun x => excludedKey kf x == k))
          = (ex.filter (fun x => excludedKey kf x == k)) ++ [e] := by
        simp [List.filter_append, hke]
      rw [hf, List.getLast?_concat]
      simp [cacheInsert, hke]
    · have hf : ((ex ++ [e]).filter (fun x => excludedKey kf x == k))
          = ex.filter (fun x => excludedKey kf x == k) := by
        simp [List.filter_append, hke]
      rw [hf]
      have hne : ¬ k = excludedKey kf e := fun hc => hke hc.symm
      simp only [cacheInsert, if_neg hne]
      exact ih

theorem isSome_excludedPass (kf : KeyFns) (c : Cache) (ex : List VODEntry)
    (k : String) (h : (c k).isSome) : ((excludedPass kf c ex) k).isSome := by
  rw [excludedPass_apply]
  cases hl : (ex.filter (fun e => excludedKey kf e == k)).getLast? with
  | none => simpa using h
  | some e => simp

/-- Applying the excluded pass twice with the same excluded list adds
nothing on the second application. -/
theorem excludedPass_idem (kf : KeyFns) (c : Cache) (ex : List VODEntry)
    (k : String) :
    excludedPass kf (excludedPass kf c ex) ex k = excludedPass kf c ex k := by
  rw [excludedPass_apply kf (excludedPass kf c ex) ex k]
  cases hl : (ex.filter (fun e => excludedKey kf e == k)).getLast? with
  | none => rfl
  | some e => rw [excludedPass_apply kf c ex k, hl]

/-- A key written by no excluded entry keeps its pre-run value in the
cache stored by a completing run. -/
theorem stored_carry_forward (kf : KeyFns) (pf : PathFns) (out : String)
    (force : Bool) (allowed excluded : List VODEntry) (existing : String → Bool)
    (c0 : Cache) (k : String)
    (hnot : ∀ e ∈ excluded, excludedKey kf e ≠ k) :
    ∀ c, (runEngine kf pf out force allowed excluded existing c0).stored = some c →
      c k = c0 k := by
  intro c hc
  unfold runEngine at hc
  by_cases h : (firstPass kf pf out force existing c0 allowed).fileOps.length = 0
  · rw [if_pos h] at hc
    simp only [Option.some.injEq] at hc
    subst hc
    rw [excludedPass_apply]
    have hf : (excluded.filter (fun e => excludedKey kf e == k)) = [] := by
      rw [List.filter_eq_nil_iff]
      intro e he
      simpa using hnot e he
    rw [hf]
    rfl
  · rw [if_neg h] at hc
    cases hc

theorem runEngine_fileOps (kf : KeyFns) (pf : PathFns) (out : String) (force : Bool)
    (allowed excluded : List VODEntry) (existing : String → Bool) (c0 : Cache) :
    (runEngine kf pf out force allowed excluded existing c0).fileOps
      = allowed.filterMap (opOf kf pf out force existing c0) := by
  simp only [runEngine]
  by_cases h : (firstPass kf pf out force existing c0 allowed).fileOps.length = 0
  · rw [if_pos h]
    exact firstPass_fileOps kf pf out force existing c0 allowed
  · rw [if_neg h]
    exact firstPass_fileOps kf pf out force existing c0 allowed

/-! ### Fixed closed inputs for witnesses and counterexamples -/

def emptyCache : Cache := fun _ => none

def noExisting : String → Bool := fun _ => false

def existAlpha : String → Bool := fun k => k == "movie:Alpha"

def oldAlphaRec : CacheRecord :=
  { url := "http://host/old", path := some "/out/Movies/Alpha.strm", allowed := some 1 }

def c2PriorCache : Cache := fun k => if k == "movie:Alpha" then some oldAlphaRec else none

def staleRec : CacheRecord :=
  { url := "http://host/stale", path := some "/out/Movies/Stale.strm", allowed := some 1 }

def staleCache : Cache := fun k => if k == "movie:Stale" then some staleRec else none

/-! ### Claim C1 -/

/-- Claim C1: whenever the first pass of the Creating-STRM phase
selects at least one file operation, the batch loop raises NameError
for the unbound global batch_write_strm_files and nothing is stored;
when it selects none, the phase completes with no error, the excluded
overlay of the copied pre-run cache is stored, and the only
Creating-STRM progress update is the final one, so the batch writer is
never reached. -/
theorem C1_batch_writer_undefined (kf : KeyFns) (pf : PathFns) (out : String)
    (force : Bool) (allowed excluded : List VODEntry) (existing : String → Bool)
    (c0 : Cache) :
    ((runEngine kf pf out force allowed excluded existing c0).fileOps ≠ [] →
      (runEngine kf pf out force allowed excluded existing c0).err
          = some (.nameError "batch_write_strm_files")
        ∧ (runEngine kf pf out force allowed excluded existing c0).stored = none)
    ∧ ((runEngine kf pf out force allowed excluded existing c0).fileOps = [] →
      (runEngine kf pf out force allowed excluded existing c0).err = none
        ∧ (runEngine kf pf out force allowed excluded existing c0).stored
            = some (excludedPass kf c0 excluded)
        ∧ (runEngine kf pf out force allowed excluded existing c0).creatingTrace
            = [allowed.length]) := by
  simp only [runEngine]
  by_cases h : (firstPass kf pf out force existing c0 allowed).fileOps.length = 0
  · rw [if_pos h]
    exact ⟨fun hne => absurd (List.length_eq_zero.mp h) hne,
      fun _ => ⟨rfl, rfl, rfl⟩⟩
  · rw [if_neg h]
    refine ⟨fun _ => ⟨rfl, rfl⟩, fun he => ?_⟩
    have he' : (firstPass kf pf out force existing c0 allowed).fileOps = [] := he
    refine absurd (show (firstPass kf pf out force existing c0 allowed).fileOps.length = 0
      from ?_) h
    rw [he']
    rfl

/-- Closed instance of claim C1: one selected operation yields the
NameError, an empty selection completes cleanly. -/
theorem C1_batch_writer_undefined_witness :
    (runEngine kfTest pfTest "/out" false [movieA1] [] noExisting emptyCache).err
        = some (.nameError "batch_write_strm_files")
    ∧ (runEngine kfTest pfTest "/out" false [] [] noExisting emptyCache).err = none := by
  refine ⟨?_, ?_⟩
  · exact ((C1_batch_writer_undefined kfTest pfTest "/out" false [movieA1] [] noExisting
      emptyCache).1 (by decide)).1
  · exact ((C1_batch_writer_undefined kfTest pfTest "/out" false [] [] noExisting
      emptyCache).2 rfl).1

/-! ### Claim C2 -/

/-- Condition the specification states for the skip-unchanged
classification, written from the spec text for comparison with the
code: the prior record under the key exists, carries allowed one, the
entry's URL and the computed target path. -/
def specSkipUnchangedCond (c0 : Cache) (key url path : String) : Bool :=
  match c0 key with
  | some r => r.allowed == some 1 && r.url == url && r.path == some path
  | none => false

/-- Claim C2 as stated fails on the code: with the prior record
holding a different URL than the entry, the first pass still skips the
entry (no file operation), although the spec condition is false. -/
theorem C2_counterexample :
    ¬ (((firstPass kfTest pfTest "/out" false noExisting c2PriorCache [movieA1]).skipped = 1
          ∧ (firstPass kfTest pfTest "/out" false noExisting c2PriorCache
              [movieA1]).fileOps = [])
        ↔ specSkipUnchangedCond c2PriorCache "movie:Alpha" movieA1.url
            (pfTest.movie_strm_path "/out" movieA1) = true) := by
  decide

/-- Claim C2 (amended): with force-regenerate disabled, an allowed
entry whose key is outside the existing-media index is classified
skipped, contributing no file operation, if and only if the prior
pointer cache holds ANY record under its key; the record's URL, path
and allowed fields are never consulted, and on a completing run the
prior record is carried forward unchanged through the initial cache
copy. -/
theorem C2_skip_iff_key_cached (kf : KeyFns) (pf : PathFns) (out : String)
    (existing : String → Bool) (c0 : Cache) (e : VODEntry) (key relPath : String)
    (hkp : firstPassKeyPath kf pf out e = some (key, relPath))
    (hk : key ≠ "") (hex : existing key = false) :
    ((firstPass kf pf out false existing c0 [e]).skipped = 1
        ∧ (firstPass kf pf out false existing c0 [e]).fileOps = []
      ↔ (c0 key).isSome)
    ∧ (∀ c, (runEngine kf pf out false [e] [] existing c0).stored = some c →
        c key = c0 key) := by
  constructor
  · have hfp : firstPass kf pf out false existing c0 [e]
        = firstPassStep kf pf out false existing c0 { fileOps := [], skipped := 0 } e := rfl
    rw [hfp]
    simp only [firstPassStep, hkp]
    rw [if_neg hk]
    by_cases hs : (c0 key).isSome
    · simp [hex, hs]
    · simp [hex, hs]
  · exact stored_carry_forward kf pf out false [e] [] existing c0 key (by simp)

/-- Closed instance of the amended claim C2: the cached key is skipped
and its record is carried forward although the URLs differ. -/
theorem C2_skip_iff_key_cached_witness :
    ((firstPass kfTest pfTest "/out" false noExisting c2PriorCache [movieA1]).skipped = 1
      ∧ (firstPass kfTest pfTest "/out" false noExisting c2PriorCache [movieA1]).fileOps = [])
    ∧ (excludedPass kfTest c2PriorCache []) "movie:Alpha" = c2PriorCache "movie:Alpha" := by
  have h := C2_skip_iff_key_cached kfTest pfTest "/out" noExisting c2PriorCache movieA1
      "movie:Alpha" "/out/Movies/Alpha.strm" (by decide) (by decide) rfl
  exact ⟨h.1.mpr (by decide), h.2 (excludedPass kfTest c2PriorCache []) rfl⟩

/-! ### Claim C3 -/

/-- Claim C3 as stated fails on the code: a key present in the pre-run
pointer cache and given no decision in the run (here a run over no
entries at all) is still present, with its old record, in the stored
cache, because new_cache starts as a copy of the pre-run cache. -/
theorem C3_counterexample :
    (runEngine kfTest pfTest "/out" false [] [] noExisting staleCache).stored
        = some (excludedPass kfTest staleCache [])
    ∧ (excludedPass kfTest staleCache []) "movie:Stale" = some staleRec := ⟨rfl, rfl⟩

/-- Claim C3 (amended): the stored pointer cache is the pre-run cache
overlaid with this run's decisions; an identity key given no decision
in the run keeps exactly its pre-run record (and in particular is not
retired). -/
theorem C3_undecided_keys_carried (kf : KeyFns) (pf : PathFns) (out : String)
    (force : Bool) (allowed excluded : List VODEntry) (existing : String → Bool)
    (c0 : Cache) (k : String)
    (hnot : ∀ e ∈ excluded, excludedKey kf e ≠ k) :
    ∀ c, (runEngine kf pf out force allowed excluded existing c0).stored = some c →
      c k = c0 k :=
  stored_carry_forward kf pf out force allowed excluded existing c0 k hnot

/-- Closed instance of the amended claim C3. -/
theorem C3_undecided_keys_carried_witness :
    (runEngine kfTest pfTest "/out" false [] [] noExisting staleCache).stored
        = some (excludedPass kfTest staleCache [])
    ∧ (excludedPass kfTest staleCache []) "movie:Stale" = staleCache "movie:Stale" :=
  ⟨rfl, C3_undecided_keys_carried kfTest pfTest "/out" false [] [] noExisting staleCache
      "movie:Stale" (by simp) (excludedPass kfTest staleCache []) rfl⟩

/-! ### Claim C4 -/

/-- Claim C4 as stated fails on the code: for an entry whose key is in
the existing-media index and absent from the prior cache, the run
completes without writing a file, but the stored cache maps the key to
nothing rather than to the record of the entry's url, a null path and
allowed true. -/
theorem C4_counterexample :
    (runEngine kfTest pfTest "/out" false [movieA1] [] existAlpha emptyCache).err = none
    ∧ (runEngine kfTest pfTest "/out" false [movieA1] [] existAlpha emptyCache).stored.map
        (fun c => c "movie:Alpha") = some none
    ∧ (some (none : Option CacheRecord)
        ≠ some (some { url := movieA1.url, path := none, allowed := some 1 })) :=
  ⟨rfl, rfl, by simp⟩

/-- Claim C4 (amended): a key in the existing-media index receives no
file operation in any run, and on a completing run (when additionally
no excluded entry carries the key) the stored cache keeps exactly the
pre-run value of that key; no fresh record of url, null path and
allowed true is written for it. -/
theorem C4_existing_key_no_record (kf : KeyFns) (pf : PathFns) (out : String)
    (force : Bool) (allowed excluded : List VODEntry) (existing : String → Bool)
    (c0 : Cache) (k : String) (hex : existing k = true)
    (hnot : ∀ e ∈ excluded, excludedKey kf e ≠ k) :
    (∀ op ∈ (runEngine kf pf out force allowed excluded existing c0).fileOps,
        op.2.2.1 ≠ k)
    ∧ (∀ c, (runEngine kf pf out force allowed excluded existing c0).stored = some c →
        c k = c0 k) := by
  constructor
  · intro op hop hkop
    rw [runEngine_fileOps] at hop
    obtain ⟨e, he, hoe⟩ := List.mem_filterMap.mp hop
    have hfalse := opOf_existing_false kf pf out force existing c0 e op hoe
    rw [hkop, hex] at hfalse
    exact Bool.noConfusion hfalse
  · exact stored_carry_forward kf pf out force allowed excluded existing c0 k hnot

/-- Closed instance of the amended claim C4: the existing key produces
no file operation and its (absent) pre-run record stays absent. -/
theorem C4_existing_key_no_record_witness :
    (runEngine kfTest pfTest "/out" false [movieA1] [] existAlpha emptyCache).fileOps = []
    ∧ (excludedPass kfTest emptyCache []) "movie:Alpha" = emptyCache "movie:Alpha" := by
  have h := C4_existing_key_no_record kfTest pfTest "/out" false [movieA1] [] existAlpha
      emptyCache "movie:Alpha" (by decide) (by simp)
  exact ⟨by decide, h.2 (excludedPass kfTest emptyCache []) rfl⟩

/-! ### Claim C5 -/

/-- Claim C5: re-running the engine with unchanged allowed and
excluded partitions, the same existing-media index and the pointer
cache stored by a completed first run classifies zero entries for
writing, raises nothing, and stores a cache extensionally identical to
the first run's. -/
theorem C5_engine_idempotent (kf : KeyFns) (pf : PathFns) (out : String)
    (allowed excluded : List VODEntry) (existing : String → Bool) (c0 c1 : Cache)
    (h1 : (runEngine kf pf out false allowed excluded existing c0).stored = some c1) :
    (runEngine kf pf out false allowed excluded existing c1).fileOps = []
    ∧ (runEngine kf pf out false allowed excluded existing c1).err = none
    ∧ (∀ c, (runEngine kf pf out false allowed excluded existing c1).stored = some c →
        ∀ k, c k = c1 k) := by
  have hbranch : (firstPass kf pf out false existing c0 allowed).fileOps.length = 0
      ∧ c1 = excludedPass kf c0 excluded := by
    simp only [runEngine] at h1
    by_cases h : (firstPass kf pf out false existing c0 allowed).fileOps.length = 0
    · rw [if_pos h] at h1
      simp only [Option.some.injEq] at h1
      exact ⟨h, h1.symm⟩
    · rw [if_neg h] at h1
      cases h1
  obtain ⟨hlen0, hc1⟩ := hbranch
  have hops0 : allowed.filterMap (opOf kf pf out false existing c0) = [] := by
    have hfp := firstPass_fileOps kf pf out false existing c0 allowed
    rw [List.length_eq_zero] at hlen0
    rw [← hfp]
    exact hlen0
  have hdom : ∀ k, (c0 k).isSome → (c1 k).isSome := by
    intro k hk
    rw [hc1]
    exact isSome_excludedPass kf c0 excluded k hk
  have hops1 : allowed.filterMap (opOf kf pf out false existing c1) = [] := by
    rw [List.filterMap_eq_nil_iff] at hops0 ⊢
    intro e he
    exact opOf_none_mono kf pf out existing c0 c1 e hdom (hops0 e he)
  have hlen1 : (firstPass kf pf out false existing c1 allowed).fileOps.length = 0 := by
    rw [firstPass_fileOps, hops1]
    rfl
  refine ⟨by rw [runEngine_fileOps]; exact hops1, ?_, ?_⟩
  · simp only [runEngine]
    rw [if_pos hlen1]
  · intro c hc k
    simp only [runEngine] at hc
    rw [if_pos hlen1] at hc
    simp only [Option.some.injEq] at hc
    subst hc
    rw [hc1]
    exact excludedPass_idem kf c0 excluded k

/-- Closed instance of claim C5: a first run that skips its one
allowed entry and records its excluded entry, re-run on its own output
cache, selects nothing and leaves the cache unchanged at the excluded
key. -/
theorem C5_engine_idempotent_witness :
    (runEngine kfTest pfTest "/out" false [movieA1] [movieB] noExisting c2PriorCache).stored
        = some (excludedPass kfTest c2PriorCache [movieB])
    ∧ (runEngine kfTest pfTest "/out" false [movieA1] [movieB] noExisting
        (excludedPass kfTest c2PriorCache [movieB])).fileOps = []
    ∧ (excludedPass kfTest (excludedPass kfTest c2PriorCache [movieB]) [movieB]) "movie:Beta"
        = (excludedPass kfTest c2PriorCache [movieB]) "movie:Beta" := by
  have h := C5_engine_idempotent kfTest pfTest "/out" [movieA1] [movieB] noExisting
      c2PriorCache (excludedPass kfTest c2PriorCache [movieB]) rfl
  exact ⟨rfl, h.1,
    h.2.2 (excludedPass kfTest (excludedPass kfTest c2PriorCache [movieB]) [movieB])
      rfl "movie:Beta"⟩

/-- Pointwise effect of a per-item update on the tracked phase's
record: processed and the capped current item are overwritten, the
three counters receive their conditional increments, and the
throughput is recomputed exactly when a start stamp exists and the
elapsed time is positive. -/
theorem update_phase_phases_eq (now : ℚ) (st : ProgressTracker)
    (phase : ProgressPhase) (processed : Nat) (item : String)
    (success skipped : Bool) (p : PhaseProgress)
    (hp : st.phases phase = some p) :
    (update_phase now st phase processed item success skipped).phases phase
      = some { p with
          processed := processed,
          current_item := item.take 100,
          success_count := p.success_count + (if success then 1 else 0),
          failure_count := p.failure_count + (if (!success && !skipped) then 1 else 0),
          skipped_count := p.skipped_count + (if skipped then 1 else 0),
          items_per_second :=
            match p.started_at with
            | some t0 =>
              if 0 < now - t0 then (processed : ℚ) / (now - t0) else p.items_per_second
            | none => p.items_per_second } := by
  obtain ⟨tot, proc, sa, ca, ips, ci, sc, fc, kc⟩ := p
  unfold update_phase
  rw [hp]
  cases sa with
  | none => cases success <;> cases skipped <;> simp
  | some t0 =>
    by_cases ht : 0 < now - t0
    · cases success <;> cases skipped <;> simp [ht]
    · cases success <;> cases skipped <;> simp [ht]

/-! ### Claim C7 -/

/-- A tracker with one started Creating-STRM phase and all counters at
zero. -/
def trackerC7 : ProgressTracker :=
  { phases := fun p => if p = .CREATING_STRM then
      some { total := 5, started_at := some 0 } else none,
    current_phase := some .CREATING_STRM }

/-- Claim C7 as stated fails on the code: a per-item update called on
a started phase with both the success and the skipped flag set adds
one to the success counter AND one to the skipped counter, so two
counters change and the total of the three counters grows by two, not
one. -/
theorem C7_counterexample :
    ∃ q, (update_phase 1 trackerC7 .CREATING_STRM 1 "item" true true).phases
        .CREATING_STRM = some q
      ∧ q.success_count = 1 ∧ q.failure_count = 0 ∧ q.skipped_count = 1
      ∧ q.success_count + q.failure_count + q.skipped_count ≠ 1 := by
  have h := update_phase_phases_eq 1 trackerC7 .CREATING_STRM 1 "item" true true
    { total := 5, started_at := some 0 } rfl
  exact ⟨_, h, rfl, rfl, rfl, by decide⟩

/-- Claim C7 (amended): a per-item update on a tracked phase sets
processed, adds one to the success counter when success is set, one to
the failure counter when neither success nor skipped is set, and one
to the skipped counter when skipped is set; whenever success and
skipped are not both set this changes exactly one counter, adding
exactly one to the total of the three; and when the phase has a start
stamp with positive elapsed time the throughput is recomputed as
processed over elapsed. -/
theorem C7_update_adds_one_counter (now : ℚ) (st : ProgressTracker)
    (phase : ProgressPhase) (processed : Nat) (item : String)
    (success skipped : Bool) (p : PhaseProgress)
    (hp : st.phases phase = some p) :
    ∃ q, (update_phase now st phase processed item success skipped).phases phase = some q
      ∧ q.processed = processed
      ∧ q.success_count = p.success_count + (if success then 1 else 0)
      ∧ q.failure_count = p.failure_count + (if (!success && !skipped) then 1 else 0)
      ∧ q.skipped_count = p.skipped_count + (if skipped then 1 else 0)
      ∧ ((success && skipped) = false →
          q.success_count + q.failure_count + q.skipped_count
            = p.success_count + p.failure_count + p.skipped_count + 1)
      ∧ (∀ t0, p.started_at = some t0 → 0 < now - t0 →
          q.items_per_second = (processed : ℚ) / (now - t0)) := by
  refine ⟨_, update_phase_phases_eq now st phase processed item success skipped p hp,
    rfl, rfl, rfl, rfl, ?_, ?_⟩
  · intro hss
    cases success <;> cases skipped <;> simp at hss ⊢ <;> omega
  · intro t0 hst0 ht0
    simp only [hst0]
    rw [if_pos ht0]

/-- Closed instance of the amended claim C7: an ordinary success
update on the started phase adds one success and recomputes the
throughput. -/
theorem C7_update_adds_one_counter_witness :
    ∃ q, (update_phase 1 trackerC7 .CREATING_STRM 3 "it" true false).phases
        .CREATING_STRM = some q
      ∧ q.processed = 3
      ∧ q.success_count = 0 + (if true then 1 else 0)
      ∧ q.items_per_second = (3 : ℚ) / (1 - 0) := by
  obtain ⟨q, h1, h2, h3, _, _, _, h7⟩ :=
    C7_update_adds_one_counter 1 trackerC7 .CREATING_STRM 3 "it" true false
      { total := 5, started_at := some 0 } rfl
  exact ⟨q, h1, h2, h3, h7 0 rfl (by norm_num)⟩

/-! ### Claim C8 -/

/-- A tracker with one completed phase holding non-zero counters. -/
def trackerC8 : ProgressTracker :=
  { phases := fun p => if p = .PARSING_M3U then
      some { total := 3, processed := 3, started_at := some 0, completed_at := some 5,
             current_item := "old", success_count := 2, failure_count := 1,
             skipped_count := 4 }
    else none,
    current_phase := some .PARSING_M3U }

/-- Claim C8 as stated fails on the code: re-entering a tracked phase
with start_phase resets processed to zero, but the success, failure
and skipped counters keep their old values and the completion
timestamp is not cleared. -/
theorem C8_counterexample :
    ∃ p, (start_phase 10 trackerC8 .PARSING_M3U 7).phases .PARSING_M3U = some p
      ∧ p.processed = 0 ∧ p.success_count = 2 ∧ p.failure_count = 1
      ∧ p.skipped_count = 4 ∧ p.completed_at = some 5
      ∧ ¬ (p.success_count = 0 ∧ p.failure_count = 0 ∧ p.skipped_count = 0
            ∧ p.completed_at = none) := by
  refine ⟨_, rfl, rfl, rfl, rfl, rfl, rfl, by decide⟩

/-- Claim C8 (amended): re-entering a tracked phase stamps a new start
time, overwrites the total, resets processed to zero and clears the
current-item label, while the success, failure and skipped counters
and the completion timestamp of that phase are retained; every other
phase is unchanged and the phase becomes current. -/
theorem C8_restart_resets_processed_only (now : ℚ) (st : ProgressTracker)
    (phase : ProgressPhase) (total_items : Nat) (p : PhaseProgress)
    (hp : st.phases phase = some p) :
    (start_phase now st phase total_items).phases phase
      = some { p with started_at := some now, total := total_items,
                      processed := 0, current_item := "" }
    ∧ (∀ q, q ≠ phase → (start_phase now st phase total_items).phases q = st.phases q)
    ∧ (start_phase now st phase total_items).current_phase = some phase := by
  refine ⟨?_, ?_, rfl⟩
  · simp [start_phase, hp]
  · intro q hq
    simp [start_phase, hq]

/-- Closed instance of the amended claim C8 on trackerC8. -/
theorem C8_restart_resets_processed_only_witness :
    (start_phase 10 trackerC8 .PARSING_M3U 7).phases .PARSING_M3U
      = some { total := 7, processed := 0, started_at := some 10, completed_at := some 5,
               current_item := "", success_count := 2, failure_count := 1,
               skipped_count := 4 }
    ∧ (start_phase 10 trackerC8 .PARSING_M3U 7).phases .CLEANUP = none := by
  have h := C8_restart_resets_processed_only 10 trackerC8 .PARSING_M3U 7
    { total := 3, processed := 3, started_at := some 0, completed_at := some 5,
      current_item := "old", success_count := 2, failure_count := 1,
      skipped_count := 4 } rfl
  exact ⟨h.1, (h.2.1 .CLEANUP (by decide)).trans rfl⟩

/-! ### Claim C9 -/

/-- Claim C9: within each phase, the sequence of processed values the
pipeline passes to the tracker between the phase's start and its
completion never decreases; every phase issues at most one update in a
run of the embedded pipeline (the Creating-STRM batch updates are
unreachable because the phase raises before the first of them when any
operation is selected). -/
theorem C9_processed_monotone (kf : KeyFns) (pf : PathFns) (out : String)
    (force : Bool) (allowed excluded : List VODEntry) (existing : String → Bool)
    (c0 : Cache) (dedupCount toCheckCount : Nat) :
    ∀ t ∈ pipelineTraces dedupCount toCheckCount
        (runEngine kf pf out force allowed excluded existing c0),
      List.Chain' (· ≤ ·) t := by
  intro t ht
  have hct : (runEngine kf pf out force allowed excluded existing c0).creatingTrace = []
      ∨ (runEngine kf pf out force allowed excluded existing c0).creatingTrace
          = [allowed.length] := by
    simp only [runEngine]
    by_cases h : (firstPass kf pf out force existing c0 allowed).fileOps.length = 0
    · rw [if_pos h]
      exact Or.inr rfl
    · rw [if_neg h]
      exact Or.inl rfl
  simp only [pipelineTraces, List.mem_cons, List.not_mem_nil, or_false] at ht
  rcases ht with rfl | rfl | rfl | rfl | rfl
  · exact List.chain'_nil
  · exact List.chain'_singleton _
  · exact List.chain'_singleton _
  · rcases hct with h | h <;> rw [h]
    · exact List.chain'_nil
    · exact List.chain'_singleton _
  · by_cases he : (runEngine kf pf out force allowed excluded existing c0).err.isSome
    · rw [if_pos he]
      exact List.chain'_nil
    · rw [if_neg he]
      exact List.chain'_singleton _

/-- Closed instance of claim C9: the parsing-phase trace of a concrete
run is monotone. -/
theorem C9_processed_monotone_witness :
    List.Chain' (· ≤ ·) [(5 : Nat)] :=
  C9_processed_monotone kfTest pfTest "/out" false [] [] noExisting emptyCache 5 7
    [5] (by decide)
